import Mathlib

/-!
Shallow embedding of the go-coldbrew/errors notification dispatch engine
(package `notifier`, file `notifier.go`) together with the narrow contract of
the repository's root `errors` package (its sources are not part of the
verification corpus, only its documentation; the parts the notifier consumes
are modelled from the specification, §3 and §6).

Go interface values, contexts, backend registries and the runtime are
represented by explicit data; machine effects (backend submissions, log
emission) are represented by an explicit effect trace; a Go panic is
represented by an `Option`/outcome value.
-/

namespace Notifier

/-! ## Association-list maps (model of Go `map[string]...` and of the
carrier's field / option stores). Insertion overwrites an existing binding. -/

def mapLookup {α : Type} : List (String × α) → String → Option α
  | [], _ => none
  | (k', v) :: rest, k => if k' = k then some v else mapLookup rest k

def mapInsert {α : Type} : List (String × α) → String → α → List (String × α)
  | [], k, v => [(k, v)]
  | (k', v') :: rest, k, v =>
    if k' = k then (k, v) :: rest else (k', v') :: mapInsert rest k v

def mapKeys {α : Type} (m : List (String × α)) : List String := m.map Prod.fst

theorem mapLookup_insert_self {α : Type} (m : List (String × α)) (k : String) (v : α) :
    mapLookup (mapInsert m k v) k = some v := by
  induction m with
  | nil => simp [mapInsert, mapLookup]
  | cons kv rest ih =>
    obtain ⟨k', v'⟩ := kv
    by_cases h : k' = k <;> simp [mapInsert, mapLookup, h, ih]

theorem mapLookup_insert_ne {α : Type} (m : List (String × α)) (k k' : String) (v : α)
    (h : k ≠ k') : mapLookup (mapInsert m k v) k' = mapLookup m k' := by
  induction m with
  | nil => simp [mapInsert, mapLookup, h]
  | cons kv rest ih =>
    obtain ⟨k₀, v₀⟩ := kv
    by_cases h₀ : k₀ = k
    · subst h₀
      simp [mapInsert, mapLookup, h, Ne.symm h]
    · by_cases h₁ : k₀ = k' <;>
        simp [mapInsert, mapLookup, h₀, h₁, ih, Ne.symm h]

/-! ## Decimal numerals (model of Go `strconv.Itoa` on non-negative values,
which is how `parseRawData` synthesizes extra-data keys). -/

def decDigits : List Char := "0123456789".data

def digitChar (n : Nat) : Char := decDigits.getD (n % 10) '0'

def natDigitsGo : Nat → Nat → List Char
  | 0, _ => []
  | fuel + 1, n =>
    if n < 10 then [digitChar n]
    else natDigitsGo fuel (n / 10) ++ [digitChar (n % 10)]

def natDigits (n : Nat) : List Char := natDigitsGo (n + 1) n

theorem natDigitsGo_fuel (n : Nat) : ∀ f₁ f₂, n < f₁ → n < f₂ →
    natDigitsGo f₁ n = natDigitsGo f₂ n := by
  induction n using Nat.strong_induction_on with
  | _ n ih =>
    intro f₁ f₂ h₁ h₂
    match f₁, f₂ with
    | fa + 1, fb + 1 =>
      by_cases h : n < 10
      · simp [natDigitsGo, h]
      · have hlt : n / 10 < n := Nat.div_lt_self (by omega) (by omega)
        simp only [natDigitsGo, h, if_false]
        rw [ih (n / 10) hlt fa fb (by omega) (by omega)]

theorem natDigits_eq (n : Nat) :
    natDigits n =
      if n < 10 then [digitChar n]
      else natDigits (n / 10) ++ [digitChar (n % 10)] := by
  by_cases h : n < 10
  · simp [natDigits, natDigitsGo, h]
  · have hlt : n / 10 < n := Nat.div_lt_self (by omega) (by omega)
    have h1 : natDigitsGo (n + 1) n = natDigitsGo n (n / 10) ++ [digitChar (n % 10)] := by
      simp only [natDigitsGo, h, if_false]
    rw [if_neg h]
    show natDigitsGo (n + 1) n = natDigitsGo (n / 10 + 1) (n / 10) ++ [digitChar (n % 10)]
    rw [h1, natDigitsGo_fuel (n / 10) n (n / 10 + 1) hlt (by omega)]

def natString (n : Nat) : String := String.mk (natDigits n)

def digitVal (c : Char) : Nat := c.toNat - 48

def digitsVal (cs : List Char) : Nat :=
  cs.foldl (fun a c => a * 10 + digitVal c) 0

theorem digitVal_digitChar (n : Nat) : digitVal (digitChar n) = n % 10 := by
  have h : n % 10 < 10 := Nat.mod_lt _ (by omega)
  have : ∀ k, k < 10 → digitVal (decDigits.getD k '0') = k := by decide
  exact this (n % 10) h

theorem digitChar_isDigit (n : Nat) : (digitChar n).isDigit = true := by
  have h : n % 10 < 10 := Nat.mod_lt _ (by omega)
  have : ∀ k, k < 10 → (decDigits.getD k '0').isDigit = true := by decide
  exact this (n % 10) h

theorem digitsVal_append (xs : List Char) (c : Char) :
    digitsVal (xs ++ [c]) = digitsVal xs * 10 + digitVal c := by
  simp [digitsVal, List.foldl_append]

theorem digitsVal_natDigits (n : Nat) : digitsVal (natDigits n) = n := by
  induction n using Nat.strong_induction_on with
  | _ n ih =>
    by_cases h : n < 10
    · rw [natDigits_eq]
      simp [h, digitsVal, digitVal_digitChar, Nat.mod_eq_of_lt h]
    · rw [natDigits_eq]
      simp only [h, if_false]
      rw [digitsVal_append, ih (n / 10) (Nat.div_lt_self (by omega) (by omega)),
        digitVal_digitChar]
      omega

theorem natDigits_inj {a b : Nat} (h : natDigits a = natDigits b) : a = b := by
  have := digitsVal_natDigits a
  rw [h, digitsVal_natDigits] at this
  omega

theorem natDigits_ne_nil (n : Nat) : natDigits n ≠ [] := by
  rw [natDigits_eq]
  by_cases h : n < 10 <;> simp [h]

theorem natDigits_all_digit (n : Nat) : ∀ c ∈ natDigits n, c.isDigit = true := by
  induction n using Nat.strong_induction_on with
  | _ n ih =>
    by_cases h : n < 10
    · rw [natDigits_eq]
      simp only [h, if_true, List.mem_singleton]
      rintro c rfl
      exact digitChar_isDigit n
    · rw [natDigits_eq]
      simp only [h, if_false, List.mem_append, List.mem_singleton]
      rintro c (hc | rfl)
      · exact ih (n / 10) (Nat.div_lt_self (by omega) (by omega)) c hc
      · exact digitChar_isDigit (n % 10)

/-! ## Extra-data keys: `reflect.TypeOf(data).String() + strconv.Itoa(pos)`
(notifier.go line 148). -/

def typeKey (tyName : String) (pos : Nat) : String := tyName ++ natString pos

def endsInDigit (cs : List Char) : Bool :=
  match cs.getLast? with
  | some c => c.isDigit
  | none => false

def endsInDigitS (s : String) : Bool := endsInDigit s.data

theorem keyHalf (a t : List Char) (i j : Nat)
    (hd : natDigits i = t ++ natDigits j)
    (hend : endsInDigit (a ++ t) = false) : t = [] := by
  cases t with
  | nil => rfl
  | cons c t' =>
    exfalso
    have ht : (c :: t') ≠ ([] : List Char) := by simp
    have hlast : (a ++ c :: t').getLast? = some ((c :: t').getLast ht) := by
      rw [List.getLast?_append, List.getLast?_eq_getLast _ ht]
      rfl
    have hmem : (c :: t').getLast ht ∈ natDigits i := by
      rw [hd]
      exact List.mem_append_left _ (List.getLast_mem ht)
    have hdig := natDigits_all_digit i _ hmem
    unfold endsInDigit at hend
    rw [hlast] at hend
    simp only [hdig] at hend
    exact Bool.noConfusion hend

theorem typeKeyChars_inj (a b : List Char) (i j : Nat) (hij : i ≠ j)
    (ha : endsInDigit a = false) (hb : endsInDigit b = false) :
    a ++ natDigits i ≠ b ++ natDigits j := by
  intro h
  rcases List.append_eq_append_iff.mp h with ⟨t, hb', hd⟩ | ⟨t, ha', hd⟩
  · have ht : t = [] := keyHalf a t i j hd (hb' ▸ hb)
    subst ht
    rw [List.nil_append] at hd
    exact hij (natDigits_inj hd)
  · have ht : t = [] := keyHalf b t j i hd (ha' ▸ ha)
    subst ht
    rw [List.nil_append] at hd
    exact hij (natDigits_inj hd.symm)

theorem string_data_append (s t : String) : (s ++ t).data = s.data ++ t.data := rfl

theorem typeKey_inj (a b : String) (i j : Nat) (hij : i ≠ j)
    (ha : endsInDigitS a = false) (hb : endsInDigitS b = false) :
    typeKey a i ≠ typeKey b j := by
  intro h
  apply typeKeyChars_inj a.data b.data i j hij ha hb
  have hdata : (typeKey a i).data = (typeKey b j).data := by rw [h]
  simpa [typeKey, natString, string_data_append] using hdata

/-! ## UUID textual form (model of `github.com/google/uuid`: `u.String()` is
the canonical 8-4-4-4-12 lowercase hex format; `NewRandom` fills 16 random
bytes and stamps version 4 / RFC-4122 variant bits). An external collaborator,
modelled at its interface boundary. -/

def hexDigitList : List Char := "0123456789abcdef".data

def hexChar (n : Nat) : Char := hexDigitList.getD (n % 16) '0'

/-- A hexadecimal digit character (lowercase or uppercase). -/
def isHexDigitB (c : Char) : Bool :=
  c.isDigit || ('a' ≤ c && c ≤ 'f') || ('A' ≤ c && c ≤ 'F')

theorem hexChar_isHexDigit (n : Nat) : isHexDigitB (hexChar n) = true := by
  have h : n % 16 < 16 := Nat.mod_lt _ (by omega)
  have : ∀ k, k < 16 → isHexDigitB (hexDigitList.getD k '0') = true := by decide
  exact this (n % 16) h

def byteHex (b : Nat) : List Char := [hexChar (b / 16), hexChar b]

theorem byteHex_hex (b : Nat) : ∀ c ∈ byteHex b, isHexDigitB c = true := by
  intro c hc
  simp only [byteHex, List.mem_cons, List.not_mem_nil, or_false] at hc
  rcases hc with rfl | rfl <;> exact hexChar_isHexDigit _

theorem append_all_hex {l₁ l₂ : List Char}
    (h₁ : ∀ c ∈ l₁, isHexDigitB c = true) (h₂ : ∀ c ∈ l₂, isHexDigitB c = true) :
    ∀ c ∈ l₁ ++ l₂, isHexDigitB c = true := by
  intro c hc
  rcases List.mem_append.mp hc with h | h
  · exact h₁ c h
  · exact h₂ c h

structure UUIDv where
  b0 : Nat
  b1 : Nat
  b2 : Nat
  b3 : Nat
  b4 : Nat
  b5 : Nat
  b6 : Nat
  b7 : Nat
  b8 : Nat
  b9 : Nat
  b10 : Nat
  b11 : Nat
  b12 : Nat
  b13 : Nat
  b14 : Nat
  b15 : Nat
deriving DecidableEq, Repr

def uuidChars (u : UUIDv) : List Char :=
  byteHex u.b0 ++ byteHex u.b1 ++ byteHex u.b2 ++ byteHex u.b3 ++ ['-'] ++
  (byteHex u.b4 ++ byteHex u.b5) ++ ['-'] ++
  (byteHex u.b6 ++ byteHex u.b7) ++ ['-'] ++
  (byteHex u.b8 ++ byteHex u.b9) ++ ['-'] ++
  (byteHex u.b10 ++ byteHex u.b11 ++ byteHex u.b12 ++ byteHex u.b13 ++
    byteHex u.b14 ++ byteHex u.b15)

def uuidString (u : UUIDv) : String := String.mk (uuidChars u)

/-- A string in the canonical textual UUID shape: five dash-separated groups
of hexadecimal digits of lengths 8, 4, 4, 4 and 12. -/
def validUUIDString (s : String) : Prop :=
  ∃ g1 g2 g3 g4 g5 : List Char,
    s.data = g1 ++ '-' :: (g2 ++ '-' :: (g3 ++ '-' :: (g4 ++ '-' :: g5))) ∧
    g1.length = 8 ∧ g2.length = 4 ∧ g3.length = 4 ∧ g4.length = 4 ∧
    g5.length = 12 ∧
    (∀ c ∈ g1 ++ g2 ++ g3 ++ g4 ++ g5, isHexDigitB c = true)

theorem uuidString_valid (u : UUIDv) : validUUIDString (uuidString u) := by
  refine ⟨byteHex u.b0 ++ byteHex u.b1 ++ byteHex u.b2 ++ byteHex u.b3,
      byteHex u.b4 ++ byteHex u.b5, byteHex u.b6 ++ byteHex u.b7,
      byteHex u.b8 ++ byteHex u.b9,
      byteHex u.b10 ++ byteHex u.b11 ++ byteHex u.b12 ++ byteHex u.b13 ++
        byteHex u.b14 ++ byteHex u.b15, ?_, ?_, ?_, ?_, ?_, ?_, ?_⟩
  · simp [uuidString, uuidChars]
  · simp [byteHex]
  · simp [byteHex]
  · simp [byteHex]
  · simp [byteHex]
  · simp [byteHex]
  · exact
      append_all_hex
        (append_all_hex
          (append_all_hex
            (append_all_hex
              (append_all_hex
                (append_all_hex (append_all_hex (byteHex_hex _) (byteHex_hex _))
                  (byteHex_hex _))
                (byteHex_hex _))
              (append_all_hex (byteHex_hex _) (byteHex_hex _)))
            (append_all_hex (byteHex_hex _) (byteHex_hex _)))
          (append_all_hex (byteHex_hex _) (byteHex_hex _)))
        (append_all_hex
          (append_all_hex
            (append_all_hex
              (append_all_hex (append_all_hex (byteHex_hex _) (byteHex_hex _))
                (byteHex_hex _))
              (byteHex_hex _))
            (byteHex_hex _))
          (byteHex_hex _))

/-- `uuid.NewRandom` stamps the version-4 and RFC-4122 variant bits onto the
sixteen random bytes: `u[6] = (u[6] & 0x0f) | 0x40`, `u[8] = (u[8] & 0x3f) | 0x80`. -/
def setVersion4 (u : UUIDv) : UUIDv :=
  { u with b6 := u.b6 % 16 + 64, b8 := u.b8 % 64 + 128 }

/-! ## Data model -/

/-- Modelled from the spec: `errors.StackFrame` lives in the repository's root
`errors` package, which is not among the available sources. Spec §3:
"StackFrame: immutable tuple \x7bfile path, function name, line number\x7d". -/
structure StackFrame where
  file : String
  func : String
  line : Int
deriving DecidableEq, Repr

/-- Modelled from the spec: a Go `error` interface value as consumed by the
notifier. The repository's root `errors` package (the `ErrorExt` /
`NotifyExt` capabilities, spec §6: `Error() string`, `Cause() error`,
`StackFrame() []StackFrame`, `Callers() []pc`, `ShouldNotify() bool`,
`Notified(bool)`) is not among the available sources. `id` models Go
interface reference identity (`==` on the interface value); `hasStack`
models satisfying the stack-capable `errors.ErrorExt` capability;
`causeId` models the identity of `Cause()` (the terminal cause the unwrap
chain bottoms out at, spec §4.3 step 5); `hasNotify` models satisfying
`errors.NotifyExt`; `tyName` models `reflect.TypeOf` on the value. -/
structure GoError where
  id : Nat
  tyName : String
  msg : String
  hasStack : Bool
  frames : List StackFrame
  callers : List Nat
  causeId : Option Nat
  hasNotify : Bool
  shouldNotify : Bool
  notified : Bool
deriving DecidableEq, Repr

/-- `Notified(true)` (notifier.go line 194): flips the notified marker on the
same error instance. -/
def markNotified (e : GoError) : GoError := { e with notified := true }

/-- Modelled from the spec: `errors.WrapWithSkip(err, msg, skip)` synthesizes
a stack-capable `ReportableError` wrapping `err`; its unwrap chain bottoms
out at `err`'s own terminal cause (spec §3, §4.3 step 4, §6). The freshly
captured stack and the fresh identity come from the environment. -/
def WrapWithSkip (freshId : Nat) (freshFrames : List StackFrame)
    (freshCallers : List Nat) (e : GoError) (msg : String) : GoError :=
  { id := freshId
    tyName := "*errors.errWithStack"
    msg := if msg = "" then e.msg else msg ++ ": " ++ e.msg
    hasStack := true
    frames := freshFrames
    callers := freshCallers
    causeId := some (e.causeId.getD e.id)
    hasNotify := false
    shouldNotify := true
    notified := false }

/-- Modelled from the spec: `errors.NewWithSkip(msg, skip)` creates a fresh
stack-capable error with message `msg` (spec §3, §6). -/
def NewWithSkip (freshId : Nat) (freshFrames : List StackFrame)
    (freshCallers : List Nat) (msg : String) : GoError :=
  { id := freshId
    tyName := "*errors.errWithStack"
    msg := msg
    hasStack := true
    frames := freshFrames
    callers := freshCallers
    causeId := none
    hasNotify := false
    shouldNotify := true
    notified := false }

/-- A value held in the carrier's field store (`go-coldbrew/log/loggers`
log context, an external collaborator; spec §6: `Range`, `Load`,
`AddField`). `str` is a Go `string`; `blob` is any other value, carrying
its dynamic type name (`none` for a nil interface value). -/
inductive FVal where
  | str (s : String)
  | blob (tyName : Option String) (tag : Nat)
deriving DecidableEq, Repr

/-- The carrier (`context.Context`) with its attached collaborators, each
modelled at its interface boundary (spec §6):
  - `optionStore`: the out-of-band option store (`go-coldbrew/options`);
    writes through the carrier are visible to later reads through the same
    carrier. All values this package ever stores there are strings.
  - `logFields`: the ambient field store (`go-coldbrew/log/loggers`),
    `none` when the carrier has no log context attached.
  - `incomingMD`: inbound gRPC transport metadata (multi-map), `none` when
    absent.
  - `spanBaggage`: the active distributed-trace span's baggage items,
    `none` when no span is attached; `BaggageItem` of a missing item is "". -/
structure Ctx where
  optionStore : List (String × String)
  logFields : Option (List (String × FVal))
  incomingMD : Option (List (String × List String))
  spanBaggage : Option (List (String × String))
deriving DecidableEq, Repr

/-- `context.Background()`: an empty carrier. -/
def backgroundCtx : Ctx :=
  { optionStore := [], logFields := none, incomingMD := none, spanBaggage := none }

/-- A heterogeneous auxiliary value (`interface{}`) passed to the `Notify*`
functions: a carrier, a `Tags` value, an `error` value, a string, or any
other value tagged with its dynamic type name (`none` models a nil
interface value, for which `reflect.TypeOf` yields nil). -/
inductive RawDatum where
  | ctx (c : Ctx)
  | tags (t : List (String × String))
  | err (e : GoError)
  | str (s : String)
  | other (tyName : Option String) (tag : Nat)
deriving DecidableEq, Repr

/-- Injection of a field-store value into the universal value type (the
field values are copied verbatim into the extra-data map). -/
def fvalToRaw : FVal → RawDatum
  | .str s => .str s
  | .blob ty tag => .other ty tag

/-- `reflect.TypeOf(data).String()` on a stored (non-carrier, non-tag-set)
value; `none` when the interface value is nil, in which case the call
panics with a nil dereference. -/
def dynTypeName : RawDatum → Option String
  | .ctx _ => some "ctx"
  | .tags _ => some "notifier.Tags"
  | .err e => some e.tyName
  | .str _ => some "string"
  | .other ty _ => ty

/-- The process-wide backend registry and configuration
(notifier.go lines 23-30): which backends are initialized, and the
configured trace header name (default "x-trace-id"). -/
structure Globals where
  airbrakeInited : Bool
  rollbarInited : Bool
  sentryInited : Bool
  traceHeader : String
deriving DecidableEq, Repr

/-- Nondeterministic inputs drawn from the runtime: the stack captured at a
synthesis point, a fresh interface identity, and the uuid sources
(`uuid.NewRandom` yielding `none` on randomness failure, and the
`uuid.NewUUID` time-based fallback). -/
structure Env where
  freshId : Nat
  freshFrames : List StackFrame
  freshCallers : List Nat
  randUUID : Option UUIDv
  clockUUID : UUIDv
deriving DecidableEq, Repr

/-! ## Stack format adapters (notifier.go lines 84-134) -/

structure GobrakeFrame where
  file : String
  func : String
  line : Int
deriving DecidableEq, Repr

structure RollbarFrame where
  filename : String
  method : String
  line : Int
deriving DecidableEq, Repr

/-- A `raven.StacktraceFrame` as produced by `raven.NewStacktraceFrame`
(external SDK, modelled at its interface boundary). -/
structure RavenFrame where
  function : String
  file : String
  line : Int
  inApp : Bool
deriving DecidableEq, Repr

structure RavenStacktrace where
  frames : List RavenFrame
deriving DecidableEq, Repr

/-- notifier.go lines 84-94. -/
def convToGoBrake (l : List StackFrame) : List GobrakeFrame :=
  l.map (fun s => { file := s.file, func := s.func, line := s.line })

/-- notifier.go lines 96-106. -/
def convToRollbar (l : List StackFrame) : List RollbarFrame :=
  l.map (fun s => { filename := s.file, method := s.func, line := s.line })

/-- The program-counter resolution performed by `runtime.CallersFrames` plus
`raven.NewStacktraceFrame` (notifier.go lines 113-127): for each pc the
runtime yields a frame, skipped when `fr.Func == nil` or when the SDK
returns no frame — both modelled by `none`. -/
def resolvedFrames (resolve : Nat → Option RavenFrame) (e : GoError) :
    List RavenFrame :=
  e.callers.filterMap (fun pc => (resolve pc).map (fun f => { f with inApp := true }))

/-- notifier.go lines 108-134: collect the resolved frames in source order,
then reverse them in place with the half-swap loop (lines 128-131). -/
def convToSentry (resolve : Nat → Option RavenFrame) (e : GoError) :
    RavenStacktrace :=
  { frames := (resolvedFrames resolve e).reverse }

/-! ## Context extractor (notifier.go lines 136-160) -/

/-- The `for pos := range rawData` loop of `parseRawData`: carriers are
skipped, tag sets appended in order, anything else stored in the extra-data
map under `reflect.TypeOf(data).String() + strconv.Itoa(pos)`. A nil
interface value makes `reflect.TypeOf(data).String()` dereference nil —
the loop panics, modelled by `none`. -/
def parseItems : List RawDatum → Nat → List (String × RawDatum) →
    List (List (String × String)) →
    Option (List (String × RawDatum) × List (List (String × String)))
  | [], _, m, tg => some (m, tg)
  | d :: rest, pos, m, tg =>
    match d with
    | .ctx _ => parseItems rest (pos + 1) m tg
    | .tags t => parseItems rest (pos + 1) m (tg ++ [t])
    | d' =>
      match dynTypeName d' with
      | none => none
      | some tn => parseItems rest (pos + 1) (mapInsert m (typeKey tn pos) d') tg

/-- notifier.go lines 151-158: every string-keyed field of the carrier's
log context is copied into the extra-data map. -/
def copyFields (fs : List (String × FVal)) (m : List (String × RawDatum)) :
    List (String × RawDatum) :=
  fs.foldl (fun acc kv => mapInsert acc kv.1 (fvalToRaw kv.2)) m

/-- notifier.go lines 136-160. -/
def parseRawData (ctx : Ctx) (rawData : List RawDatum) :
    Option (List (String × RawDatum) × List (List (String × String))) :=
  match parseItems rawData 0 [] [] with
  | none => none
  | some (m, tg) =>
    match ctx.logFields with
    | none => some (m, tg)
    | some fs => some (copyFields fs m, tg)

/-! ## Trace identifier manager (notifier.go lines 401-459) -/

def tracerID : String := "tracerId"

/-- `loggers.AddToLogContext(ctx, k, v)`: external field-carrier collaborator
(spec §6, `AddField`); this package only ever stores string values. -/
def AddToLogContext (ctx : Ctx) (k : String) (v : String) : Ctx :=
  { ctx with logFields := some (mapInsert (ctx.logFields.getD []) k (FVal.str v)) }

/-- `options.AddToOptions(ctx, k, v)`: external option-store collaborator;
a write through the carrier is visible to subsequent reads through the
same carrier (spec §4.2: the cached identifier makes later lookups hit the
fast path). -/
def AddToOptions (ctx : Ctx) (k v : String) : Ctx :=
  { ctx with optionStore := mapInsert ctx.optionStore k v }

/-- `span.BaggageItem(name)`: "" when the item is absent. -/
def baggageItem (b : List (String × String)) (k : String) : String :=
  (mapLookup b k).getD ""

/-- notifier.go lines 431-448. Returns the identifier together with the
carrier as observable afterwards (the field-store fallback also populates
the carrier's option-store cache, line 442). -/
def GetTraceId (ctx : Ctx) : String × Ctx :=
  match mapLookup ctx.optionStore tracerID with
  | some v => (v, ctx)
  | none =>
    match ctx.logFields with
    | some fs =>
      match mapLookup fs "trace" with
      | some (FVal.str t) =>
        (t, { ctx with optionStore := mapInsert ctx.optionStore tracerID t })
      | some (FVal.blob _ _) => ("", ctx)
      | none => ("", ctx)
    | none => ("", ctx)

def joinComma (l : List String) : String := String.intercalate "," l

/-- `strings.TrimSpace`: strip whitespace from both ends. -/
def trimSpace (s : String) : String :=
  String.mk (((s.data.dropWhile Char.isWhitespace).reverse.dropWhile
    Char.isWhitespace).reverse)

/-- The identifier minted at notifier.go lines 420-426: `uuid.NewRandom()`,
falling back to `uuid.NewUUID()` when the randomness source fails. -/
def mintUUID (env : Env) : String :=
  match env.randUUID with
  | some u => uuidString (setVersion4 u)
  | none => uuidString env.clockUUID

/-- notifier.go lines 404-429. -/
def SetTraceId (g : Globals) (env : Env) (ctx : Ctx) : Ctx :=
  let r := GetTraceId ctx
  if r.fst ≠ "" then r.snd
  else
    let ctx := r.snd
    let traceID :=
      match ctx.incomingMD with
      | some md =>
        match mapLookup md ("grpcmetadata-" ++ g.traceHeader) with
        | some id => joinComma id
        | none =>
          match mapLookup md g.traceHeader with
          | some id => joinComma id
          | none => ""
      | none => ""
    let traceID :=
      match ctx.spanBaggage with
      | some b => if trimSpace traceID = "" then baggageItem b "trace" else traceID
      | none => traceID
    let traceID := if trimSpace traceID = "" then mintUUID env else traceID
    AddToOptions (AddToLogContext ctx "trace" traceID) tracerID traceID

/-- notifier.go lines 453-459. -/
def UpdateTraceId (g : Globals) (env : Env) (ctx : Ctx) (traceID : String) : Ctx :=
  if traceID = "" then SetTraceId g env ctx
  else AddToOptions (AddToLogContext ctx "trace" traceID) tracerID traceID

/-! ## Dispatch engine (notifier.go lines 162-324) -/

/-- An observable machine effect. Report payload details (extra data, tags,
trace id, server metadata) ride on the backend submissions and are not
replayed in the trace; the effect records which backend was hit, at which
native severity, and with which stack-capable error. -/
inductive Effect where
  | airbrakeSend (e : GoError)
  | rollbarSend (level : String) (e : GoError)
  | sentrySend (level : String) (e : GoError)
  | logEmit (e : GoError)
  | airbrakePanicHook
deriving DecidableEq, Repr

/-- doNotify lines 206-209: ensure the error carries stack capture,
synthesizing a wrapper via `errors.WrapWithSkip(err, "", skip+1)` if not. -/
def ensureStack (env : Env) (err : GoError) : GoError :=
  if err.hasStack then err
  else WrapWithSkip env.freshId env.freshFrames env.freshCallers err ""

/-- doNotify lines 215-222: an auxiliary error aborts the dispatch when it
is reference-identical to `err` (`e == err`) or when it is stack-capable
and its cause is `err` (`err == er.Cause()`). -/
def selfRefMatch (err e : GoError) : Bool :=
  e.id == err.id || (e.hasStack && e.causeId == some err.id)

/-- doNotify lines 211-226: error-typed values are checked (and never kept);
everything else is kept for context extraction. `none` models the early
`return err`. -/
def filterSelfRef (err : GoError) : List RawDatum → Option (List RawDatum)
  | [] => some []
  | .err e :: rest =>
    if selfRefMatch err e then none else filterSelfRef err rest
  | d :: rest => (filterSelfRef err rest).map (d :: ·)

/-- doNotify lines 228-242: the first carrier in the remaining list. -/
def findCtx : List RawDatum → Option Ctx
  | [] => none
  | .ctx c :: _ => some c
  | _ :: rest => findCtx rest

/-- doNotify lines 229-242: span baggage first, then the trace identifier
manager's lookup. -/
def doNotifyTraceId (list : List RawDatum) : String :=
  match findCtx list with
  | some c =>
    let t :=
      match c.spanBaggage with
      | some b => baggageItem b "trace"
      | none => ""
    if trimSpace t = "" then (GetTraceId c).fst else t
  | none => ""

/-- doNotify lines 275-281: map the generic severity token onto raven's
native levels; unmapped tokens default to "error". -/
def sentryLevel (level : String) : String :=
  if level = "critical" then "fatal"
  else if level = "warning" then "warning"
  else "error"

/-- notifier.go lines 200-295. The trace id (lines 228-242) and the parsed
extra data and tags decorate the submissions; the dispatch returns the
original error. `none` models the `parseRawData` panic escaping the call. -/
def doNotify (g : Globals) (env : Env) (err : GoError) (skip : Int)
    (level : String) (rawData : List RawDatum) : Option (GoError × List Effect) :=
  let errWithStack := ensureStack env err
  match filterSelfRef err rawData with
  | none => some (err, [])
  | some list =>
    let ctx := (findCtx list).getD backgroundCtx
    match parseRawData ctx list with
    | none => none
    | some _ =>
      some (err,
        (if g.airbrakeInited then [Effect.airbrakeSend errWithStack] else []) ++
        (if g.rollbarInited then [Effect.rollbarSend level errWithStack] else []) ++
        (if g.sentryInited then [Effect.sentrySend (sentryLevel level) errWithStack]
         else []) ++
        [Effect.logEmit errWithStack])

/-- notifier.go lines 185-198. -/
def NotifyWithLevelAndSkip (g : Globals) (env : Env) (err : Option GoError)
    (skip : Int) (level : String) (rawData : List RawDatum) :
    Option (Option GoError × List Effect) :=
  match err with
  | none => some (none, [])
  | some e =>
    if e.hasNotify then
      if !e.shouldNotify then some (some e, [])
      else
        (doNotify g env (markNotified e) skip level rawData).map
          (fun p => (some p.1, p.2))
    else (doNotify g env e skip level rawData).map (fun p => (some p.1, p.2))

/-- notifier.go lines 166-168 (`rollbar.ERR = "error"`). -/
def Notify (g : Globals) (env : Env) (err : Option GoError)
    (rawData : List RawDatum) : Option (Option GoError × List Effect) :=
  NotifyWithLevelAndSkip g env err 2 "error" rawData

/-- notifier.go lines 175-177. -/
def NotifyWithLevel (g : Globals) (env : Env) (err : Option GoError)
    (level : String) (rawData : List RawDatum) :
    Option (Option GoError × List Effect) :=
  NotifyWithLevelAndSkip g env err 2 level rawData

/-- NotifyWithExclude lines 306-321: only stack-capable auxiliary errors are
checked (`err == er.Cause()` first, then `er == err`); error values are
never kept. -/
def excludeFilter (err : GoError) : List RawDatum → Option (List RawDatum)
  | [] => some []
  | .err e :: rest =>
    if e.hasStack && (e.causeId == some err.id || e.id == err.id) then none
    else excludeFilter err rest
  | d :: rest => (excludeFilter err rest).map (d :: ·)

/-- notifier.go lines 301-324. The second component records the detached
`go Notify(err, list...)` task (spec §5: fire-and-forget, nothing runs
synchronously), `none` when no task is spawned. -/
def NotifyWithExclude (g : Globals) (err : Option GoError)
    (rawData : List RawDatum) : Option GoError × Option (GoError × List RawDatum) :=
  match err with
  | none => (none, none)
  | some e =>
    match excludeFilter e rawData with
    | none => (some e, none)
    | some list => (some e, some (e, list))

/-! ## Panic recovery adapter (notifier.go lines 326-371) -/

/-- An in-flight panic value: an error, a string, the nil interface value
(`panic(nil)`), or anything else. Under the module's declared language
version (go.mod: go 1.15), `recover()` during `panic(nil)` returns nil —
indistinguishable from no panic at all. -/
inductive PanicVal where
  | err (e : GoError)
  | str (s : String)
  | nilVal
  | other (tag : Nat)
deriving DecidableEq, Repr

/-- What a re-raised panic carries: the wrapped stack-captured error
(line 369), or the runtime's nil-dereference error when `parseRawData`
panics inside the handler (line 354). -/
inductive PanicPayload where
  | wrapped (e : GoError)
  | runtimeErr
deriving DecidableEq, Repr

inductive Outcome where
  | normal
  | panics (p : PanicPayload)
deriving DecidableEq, Repr

/-- notifier.go lines 346-353: the type switch over the recovered value.
The `nilVal` branch is the switch's default case; in the source it sits
behind the `r != nil` guard and is unreachable. -/
def classifyPanic (env : Env) : PanicVal → GoError
  | .err e => WrapWithSkip env.freshId env.freshFrames env.freshCallers e "PANIC"
  | .str s =>
    NewWithSkip env.freshId env.freshFrames env.freshCallers ("PANIC: " ++ s)
  | .nilVal => NewWithSkip env.freshId env.freshFrames env.freshCallers "Panic"
  | .other _ => NewWithSkip env.freshId env.freshFrames env.freshCallers "Panic"

/-- notifier.go lines 332-371. `recovered` is the in-flight panic value
(`none` on a non-panicking scope exit). The guard at line 344 is
`if r := recover(); r != nil`: under go 1.15 semantics `recover()` during
`panic(nil)` returns nil yet stops the panic, so a `panic(nil)` in flight
takes the same path as a non-panicking exit and the function returns
normally. The deferred `airbrake.NotifyOnPanic()` flush hook
(lines 333-335) runs on every exit when airbrake is initialized. -/
def NotifyOnPanic (g : Globals) (env : Env) (recovered : Option PanicVal)
    (rawData : List RawDatum) : List Effect × Outcome :=
  let hook := if g.airbrakeInited then [Effect.airbrakePanicHook] else []
  let ctx := (findCtx rawData).getD backgroundCtx
  match recovered with
  | none => (hook, .normal)
  | some .nilVal => (hook, .normal)
  | some r =>
    let e := classifyPanic env r
    match parseRawData ctx rawData with
    | none => (hook, .panics .runtimeErr)
    | some _ =>
      ((if g.rollbarInited then [Effect.rollbarSend "critical" e] else []) ++
        (if g.sentryInited then [Effect.sentrySend "fatal" e] else []) ++ hook,
        .panics (.wrapped e))

/-! ## Concrete fixtures used by the evaluation witnesses -/

def g0 : Globals :=
  { airbrakeInited := false, rollbarInited := false, sentryInited := false,
    traceHeader := "x-trace-id" }

def gAll : Globals :=
  { airbrakeInited := true, rollbarInited := true, sentryInited := true,
    traceHeader := "x-trace-id" }

def u0 : UUIDv := ⟨0, 0, 0, 0, 0, 0, 0, 0, 0, 0, 0, 0, 0, 0, 0, 0⟩

def env0 : Env :=
  { freshId := 100, freshFrames := [], freshCallers := [],
    randUUID := some u0, clockUUID := u0 }

def e0 : GoError :=
  { id := 1, tyName := "*errors.errWithStack", msg := "boom", hasStack := true,
    frames := [], callers := [], causeId := none, hasNotify := false,
    shouldNotify := true, notified := false }

def eNotify : GoError := { e0 with id := 2, hasNotify := true }

def eSupp : GoError :=
  { e0 with id := 3, hasNotify := true, shouldNotify := false }

/-- A carrier holding only the field-store identifier "B". -/
def ctxFieldB : Ctx :=
  { optionStore := [], logFields := some [("trace", FVal.str "B")],
    incomingMD := none, spanBaggage := none }

/-! ## Dispatch lemmas -/

theorem doNotify_fst {g : Globals} {env : Env} {err : GoError} {skip : Int}
    {level : String} {rawData : List RawDatum} {p : GoError × List Effect}
    (h : doNotify g env err skip level rawData = some p) : p.1 = err := by
  unfold doNotify at h
  cases hf : filterSelfRef err rawData with
  | none =>
    rw [hf] at h
    simp only [Option.some.injEq] at h
    rw [← h]
  | some list =>
    rw [hf] at h
    simp only at h
    cases hp : parseRawData ((findCtx list).getD backgroundCtx) list with
    | none =>
      rw [hp] at h
      exact absurd h (by simp)
    | some pr =>
      rw [hp] at h
      simp only [Option.some.injEq] at h
      rw [← h]

theorem doNotify_abort {g : Globals} {env : Env} {err : GoError} {skip : Int}
    {level : String} {rawData : List RawDatum}
    (h : filterSelfRef err rawData = none) :
    doNotify g env err skip level rawData = some (err, []) := by
  unfold doNotify
  rw [h]

theorem selfRefMatch_mark (e e' : GoError) :
    selfRefMatch (markNotified e) e' = selfRefMatch e e' := rfl

theorem NotifyWithLevelAndSkip_some (g : Globals) (env : Env) (e : GoError)
    (skip : Int) (level : String) (rawData : List RawDatum) :
    NotifyWithLevelAndSkip g env (some e) skip level rawData =
      if e.hasNotify then
        if !e.shouldNotify then some (some e, [])
        else
          (doNotify g env (markNotified e) skip level rawData).map
            (fun p => (some p.1, p.2))
      else (doNotify g env e skip level rawData).map (fun p => (some p.1, p.2)) :=
  rfl

theorem NotifyWithExclude_some (g : Globals) (e : GoError)
    (rawData : List RawDatum) :
    NotifyWithExclude g (some e) rawData =
      match excludeFilter e rawData with
      | none => (some e, none)
      | some list => (some e, some (e, list)) := rfl

theorem filterSelfRef_none_of_match {err : GoError} {rawData : List RawDatum}
    (h : ∃ e', RawDatum.err e' ∈ rawData ∧ selfRefMatch err e' = true) :
    filterSelfRef err rawData = none := by
  obtain ⟨e', hmem, hmatch⟩ := h
  induction rawData with
  | nil => cases hmem
  | cons d rest ih =>
    cases hmem with
    | head => simp [filterSelfRef, hmatch]
    | tail _ htail =>
      have hrest := ih htail
      cases d with
      | err e2 =>
        by_cases hm : selfRefMatch err e2 = true
        · simp [filterSelfRef, hm]
        · simp only [Bool.not_eq_true] at hm
          simp [filterSelfRef, hm, hrest]
      | ctx c => simp [filterSelfRef, hrest]
      | tags t => simp [filterSelfRef, hrest]
      | str s => simp [filterSelfRef, hrest]
      | other ty tag => simp [filterSelfRef, hrest]

/-! ## Claim theorems -/

/-- Claim C1: for every error value and every auxiliary list, each of
`Notify`, `NotifyWithLevel`, `NotifyWithLevelAndSkip` and
`NotifyWithExclude` returns exactly the original error on every normally
returning path (the same reference — at most its notified marker is
flipped in place), returns nil when the error is nil without invoking any
backend submission, and never returns an error about its own operation. -/
theorem notify_propagates_original_error :
    (∀ g env rawData, Notify g env none rawData = some (none, [])) ∧
    (∀ g env level rawData,
      NotifyWithLevel g env none level rawData = some (none, [])) ∧
    (∀ g env skip level rawData,
      NotifyWithLevelAndSkip g env none skip level rawData = some (none, [])) ∧
    (∀ g rawData, NotifyWithExclude g none rawData = (none, none)) ∧
    (∀ g env e skip level rawData out,
      NotifyWithLevelAndSkip g env (some e) skip level rawData = some out →
      (out.1 = some e ∨ out.1 = some (markNotified e)) ∧
      ∃ e', out.1 = some e' ∧ e'.id = e.id) ∧
    (∀ g env e rawData out, Notify g env (some e) rawData = some out →
      (out.1 = some e ∨ out.1 = some (markNotified e))) ∧
    (∀ g env e level rawData out,
      NotifyWithLevel g env (some e) level rawData = some out →
      (out.1 = some e ∨ out.1 = some (markNotified e))) ∧
    (∀ g e rawData, (NotifyWithExclude g (some e) rawData).1 = some e) := by
  have key : ∀ g env e skip level rawData out,
      NotifyWithLevelAndSkip g env (some e) skip level rawData = some out →
      (out.1 = some e ∨ out.1 = some (markNotified e)) ∧
      ∃ e', out.1 = some e' ∧ e'.id = e.id := by
    intro g env e skip level rawData out h
    rw [NotifyWithLevelAndSkip_some] at h
    cases hn : e.hasNotify with
    | false =>
      rw [hn] at h
      simp only [Bool.false_eq_true, if_false] at h
      obtain ⟨p, hp, hout⟩ := Option.map_eq_some'.mp h
      have := doNotify_fst hp
      subst hout
      exact ⟨Or.inl (by rw [this]), e, by rw [this], rfl⟩
    | true =>
      rw [hn] at h
      simp only [if_true] at h
      cases hs : e.shouldNotify with
      | false =>
        rw [hs] at h
        simp only [Bool.not_false, if_true, Option.some.injEq] at h
        subst h
        exact ⟨Or.inl rfl, e, rfl, rfl⟩
      | true =>
        rw [hs] at h
        simp only [Bool.not_true, Bool.false_eq_true, if_false] at h
        obtain ⟨p, hp, hout⟩ := Option.map_eq_some'.mp h
        have := doNotify_fst hp
        subst hout
        exact ⟨Or.inr (by rw [this]), markNotified e, by rw [this], rfl⟩
  refine ⟨fun g env rawData => rfl, fun g env level rawData => rfl,
    fun g env skip level rawData => rfl, fun g rawData => rfl, key,
    ?_, ?_, ?_⟩
  · intro g env e rawData out h
    exact (key g env e 2 "error" rawData out h).1
  · intro g env e level rawData out h
    exact (key g env e 2 level rawData out h).1
  · intro g e rawData
    rw [NotifyWithExclude_some]
    cases excludeFilter e rawData <;> rfl

/-- Evaluation witness for the C1 theorem at a concrete dispatch. -/
theorem notify_propagates_original_error_witness :
    ((some e0 = some e0 ∨ some e0 = some (markNotified e0)) ∧
      ∃ e', (some e0 : Option GoError) = some e' ∧ e'.id = e0.id) := by
  have happ := notify_propagates_original_error.2.2.2.2.1 g0 env0 e0 2 "error" []
      (some e0, [Effect.logEmit e0]) (by decide)
  exact happ

/-- Claim C2: for every non-nil error and auxiliary list, if some auxiliary
value is an error reference-identical to the primary error, or a
stack-capable error whose unwrapped cause chain bottoms out at it, the
dispatch is aborted: the call returns the original error (reference-equal)
and triggers zero backend submissions and zero log emissions. -/
theorem notify_self_reference_aborts (g : Globals) (env : Env) (e : GoError)
    (skip : Int) (level : String) (rawData : List RawDatum)
    (h : ∃ e', RawDatum.err e' ∈ rawData ∧
      (e'.id = e.id ∨ (e'.hasStack = true ∧ e'.causeId = some e.id))) :
    ∃ e'', (e'' = e ∨ e'' = markNotified e) ∧ e''.id = e.id ∧
      NotifyWithLevelAndSkip g env (some e) skip level rawData =
        some (some e'', []) := by
  have hm : ∃ e', RawDatum.err e' ∈ rawData ∧ selfRefMatch e e' = true := by
    obtain ⟨e', hmem, hcase⟩ := h
    refine ⟨e', hmem, ?_⟩
    rcases hcase with h1 | ⟨h1, h2⟩ <;> simp [selfRefMatch, h1]
    simp [h2]
  have hf : filterSelfRef e rawData = none := filterSelfRef_none_of_match hm
  have hfm : filterSelfRef (markNotified e) rawData = none := by
    apply filterSelfRef_none_of_match
    obtain ⟨e', hmem, hmatch⟩ := hm
    exact ⟨e', hmem, by rw [selfRefMatch_mark]; exact hmatch⟩
  rw [NotifyWithLevelAndSkip_some]
  cases hn : e.hasNotify with
  | false =>
    refine ⟨e, Or.inl rfl, rfl, ?_⟩
    rw [doNotify_abort hf]
    simp
  | true =>
    cases hs : e.shouldNotify with
    | false =>
      refine ⟨e, Or.inl rfl, rfl, ?_⟩
      simp
    | true =>
      refine ⟨markNotified e, Or.inr rfl, rfl, ?_⟩
      rw [doNotify_abort hfm]
      simp

/-- Evaluation witness for the C2 theorem: `Notify(E, E)` with all backends
enabled returns E with zero effects. -/
theorem notify_self_reference_aborts_witness :
    ∃ e'', (e'' = e0 ∨ e'' = markNotified e0) ∧ e''.id = e0.id ∧
      NotifyWithLevelAndSkip gAll env0 (some e0) 2 "error" [RawDatum.err e0] =
        some (some e'', []) :=
  notify_self_reference_aborts gAll env0 e0 2 "error" [RawDatum.err e0]
    ⟨e0, by decide, Or.inl rfl⟩

/-- Claim C3: an error exposing the should-notify capability with value
false is returned untouched with zero backend submissions and zero log
emissions; when the capability reports true, the notified marker is set to
true before the reporting body (`doNotify`) runs. -/
theorem notify_should_notify_gate (g : Globals) (env : Env) (e : GoError)
    (skip : Int) (level : String) (rawData : List RawDatum)
    (hn : e.hasNotify = true) :
    (e.shouldNotify = false →
      NotifyWithLevelAndSkip g env (some e) skip level rawData =
        some (some e, [])) ∧
    (e.shouldNotify = true →
      NotifyWithLevelAndSkip g env (some e) skip level rawData =
        (doNotify g env (markNotified e) skip level rawData).map
          (fun p => (some p.1, p.2)) ∧
      (markNotified e).notified = true ∧
      ∀ out, NotifyWithLevelAndSkip g env (some e) skip level rawData = some out →
        out.1 = some (markNotified e)) := by
  constructor
  · intro hs
    rw [NotifyWithLevelAndSkip_some, hn, hs]
    simp
  · intro hs
    have heq : NotifyWithLevelAndSkip g env (some e) skip level rawData =
        (doNotify g env (markNotified e) skip level rawData).map
          (fun p => (some p.1, p.2)) := by
      rw [NotifyWithLevelAndSkip_some, hn, hs]
      simp
    refine ⟨heq, rfl, ?_⟩
    intro out h
    rw [heq] at h
    obtain ⟨p, hp, hout⟩ := Option.map_eq_some'.mp h
    have := doNotify_fst hp
    subst hout
    rw [this]

/-- Evaluation witness for the C3 theorem: a suppressed error is returned
untouched with an empty effect trace even with all backends enabled. -/
theorem notify_should_notify_gate_witness :
    NotifyWithLevelAndSkip gAll env0 (some eSupp) 2 "error" [] =
      some (some eSupp, []) :=
  (notify_should_notify_gate gAll env0 eSupp 2 "error" [] (by decide)).1
    (by decide)

/-! ## Context-extraction totality lemmas -/

/-- A nil interface value that is neither a carrier nor a tag set: the one
shape of auxiliary value whose stored-key synthesis dereferences nil. -/
def nilValued : RawDatum → Bool
  | .other none _ => true
  | _ => false

theorem parseItems_isSome {rawData : List RawDatum}
    (h : ∀ d ∈ rawData, nilValued d = false) :
    ∀ pos m tg, (parseItems rawData pos m tg).isSome = true := by
  induction rawData with
  | nil => intro pos m tg; rfl
  | cons d rest ih =>
    intro pos m tg
    have hd := h d (List.mem_cons_self d rest)
    have hrest : ∀ d' ∈ rest, nilValued d' = false :=
      fun d' hm => h d' (List.mem_cons_of_mem d hm)
    cases d with
    | ctx c => simpa [parseItems] using ih hrest (pos + 1) m tg
    | tags t => simpa [parseItems] using ih hrest (pos + 1) m (tg ++ [t])
    | err e => simpa [parseItems, dynTypeName] using ih hrest (pos + 1) _ tg
    | str t => simpa [parseItems, dynTypeName] using ih hrest (pos + 1) _ tg
    | other ty tag =>
      cases ty with
      | none => exact absurd hd (by simp [nilValued])
      | some tn => simpa [parseItems, dynTypeName] using ih hrest (pos + 1) _ tg

theorem parseItems_nil_none {rawData : List RawDatum} {d₀ : RawDatum}
    (hmem : d₀ ∈ rawData) (hnil : nilValued d₀ = true) :
    ∀ pos m tg, parseItems rawData pos m tg = none := by
  induction rawData with
  | nil => cases hmem
  | cons d rest ih =>
    intro pos m tg
    cases hmem with
    | head =>
      obtain ⟨tag, rfl⟩ : ∃ tag, d₀ = RawDatum.other none tag := by
        cases d₀ with
        | other ty tag =>
          cases ty with
          | none => exact ⟨tag, rfl⟩
          | some tn => exact absurd hnil (by simp [nilValued])
        | ctx c => exact absurd hnil (by simp [nilValued])
        | tags t => exact absurd hnil (by simp [nilValued])
        | err e => exact absurd hnil (by simp [nilValued])
        | str s => exact absurd hnil (by simp [nilValued])
      simp [parseItems, dynTypeName]
    | tail _ htail =>
      have hrest := ih htail
      cases d with
      | ctx c => simp [parseItems, hrest]
      | tags t => simp [parseItems, hrest]
      | err e => simp [parseItems, dynTypeName, hrest]
      | str s => simp [parseItems, dynTypeName, hrest]
      | other ty tag =>
        cases ty with
        | none => simp [parseItems, dynTypeName]
        | some tn => simp [parseItems, dynTypeName, hrest]

theorem parseRawData_isSome {ctx : Ctx} {rawData : List RawDatum}
    (h : ∀ d ∈ rawData, nilValued d = false) :
    (parseRawData ctx rawData).isSome = true := by
  unfold parseRawData
  have hs := parseItems_isSome h 0 [] []
  cases hp : parseItems rawData 0 [] [] with
  | none => rw [hp] at hs; exact absurd hs (by simp)
  | some pr =>
    obtain ⟨m, tg⟩ := pr
    cases ctx.logFields <;> simp

theorem parseRawData_none {ctx : Ctx} {rawData : List RawDatum} {d₀ : RawDatum}
    (hmem : d₀ ∈ rawData) (hnil : nilValued d₀ = true) :
    parseRawData ctx rawData = none := by
  unfold parseRawData
  rw [parseItems_nil_none hmem hnil 0 [] []]

/-- Claim C4 (amended): a non-panicking exit of `NotifyOnPanic` does
nothing beyond the backend panic-flush hook, and a panic with a non-nil
value always re-raises. A `panic(nil)`, however, is swallowed: under the
module's declared go 1.15 semantics `recover()` returns nil, the
`r != nil` guard at line 344 fails, and the in-flight panic is converted
into a normal return — so the "never converts a panic into a normal
return" contract holds only for non-nil panic values. Provided further
that the bound auxiliary values admit context extraction (no nil
non-carrier, non-tag-set values — otherwise the re-raised panic is the
key-synthesis nil dereference), the re-raised panic carries the classified
error: for a string s a stack-captured error with message "PANIC: "
followed by s, for an error the "PANIC"-tagged stack-capturing wrapper,
and for any other value a generic stack-captured error. -/
theorem notify_on_panic_re_raises (g : Globals) (env : Env) :
    (∀ rawData, NotifyOnPanic g env none rawData =
      ((if g.airbrakeInited then [Effect.airbrakePanicHook] else []),
        Outcome.normal)) ∧
    (∀ rawData, NotifyOnPanic g env (some PanicVal.nilVal) rawData =
      ((if g.airbrakeInited then [Effect.airbrakePanicHook] else []),
        Outcome.normal)) ∧
    (∀ rawData r, r ≠ PanicVal.nilVal →
      (NotifyOnPanic g env (some r) rawData).2 ≠ Outcome.normal) ∧
    (∀ rawData r, r ≠ PanicVal.nilVal →
      (∀ d ∈ rawData, nilValued d = false) →
      (NotifyOnPanic g env (some r) rawData).2 =
        Outcome.panics (PanicPayload.wrapped (classifyPanic env r))) ∧
    (∀ s, (classifyPanic env (PanicVal.str s)).msg = "PANIC: " ++ s ∧
      (classifyPanic env (PanicVal.str s)).hasStack = true) ∧
    (∀ e, classifyPanic env (PanicVal.err e) =
      WrapWithSkip env.freshId env.freshFrames env.freshCallers e "PANIC") ∧
    (∀ t, (classifyPanic env (PanicVal.other t)).msg = "Panic" ∧
      (classifyPanic env (PanicVal.other t)).hasStack = true) := by
  refine ⟨fun rawData => rfl, fun rawData => rfl, ?_, ?_,
    fun s => ⟨rfl, rfl⟩, fun e => rfl, fun t => ⟨rfl, rfl⟩⟩
  · intro rawData r hr
    cases r with
    | nilVal => exact absurd rfl hr
    | err e2 =>
      unfold NotifyOnPanic
      cases hp : parseRawData ((findCtx rawData).getD backgroundCtx) rawData <;>
        simp [hp]
    | str s =>
      unfold NotifyOnPanic
      cases hp : parseRawData ((findCtx rawData).getD backgroundCtx) rawData <;>
        simp [hp]
    | other t =>
      unfold NotifyOnPanic
      cases hp : parseRawData ((findCtx rawData).getD backgroundCtx) rawData <;>
        simp [hp]
  · intro rawData r hr h
    have hs := @parseRawData_isSome ((findCtx rawData).getD backgroundCtx) rawData h
    cases hp : parseRawData ((findCtx rawData).getD backgroundCtx) rawData with
    | none => rw [hp] at hs; exact absurd hs (by simp)
    | some pr =>
      cases r with
      | nilVal => exact absurd rfl hr
      | err e2 =>
        unfold NotifyOnPanic
        simp [hp]
      | str s =>
        unfold NotifyOnPanic
        simp [hp]
      | other t =>
        unfold NotifyOnPanic
        simp [hp]

/-- Evaluation witness for the C4 theorem: a panic with string value "boom"
and extractable auxiliary values re-raises the classified error. -/
theorem notify_on_panic_re_raises_witness :
    (NotifyOnPanic gAll env0 (some (PanicVal.str "boom")) []).2 =
      Outcome.panics (PanicPayload.wrapped
        (classifyPanic env0 (PanicVal.str "boom"))) :=
  (notify_on_panic_re_raises gAll env0).2.2.2.1 [] (PanicVal.str "boom")
    (by decide) (by decide)

/-- C4 counterexample to the claim as stated, on two concrete inputs.
First: with a nil auxiliary value bound at defer time, a panic with string
value "boom" is re-raised as the runtime's nil-dereference panic from
extra-data key synthesis (`reflect.TypeOf(nil).String()`), not as a
stack-captured error whose message starts with "PANIC: boom". Second: an
in-flight `panic(nil)` is converted into a normal return — `recover()`
yields nil under go 1.15 semantics, so the line-344 guard treats it as a
non-panicking exit, violating the never-return-normally contract. -/
theorem notify_on_panic_counterexample :
    (NotifyOnPanic g0 env0 (some (PanicVal.str "boom"))
        [RawDatum.other none 0]).2 = Outcome.panics PanicPayload.runtimeErr ∧
    (NotifyOnPanic g0 env0 (some (PanicVal.str "boom"))
        [RawDatum.other none 0]).2 ≠
      Outcome.panics (PanicPayload.wrapped
        (classifyPanic env0 (PanicVal.str "boom"))) ∧
    (NotifyOnPanic g0 env0 (some PanicVal.nilVal) []).2 = Outcome.normal :=
  ⟨by decide, by decide, by decide⟩

/-- Claim C5: trace identifier resolution precedence: an option-store cached
identifier wins; with only a field-store identifier, that one is returned
and the option-store cache is populated so that a second call on the same
carrier is a pure option-store cache hit; with neither present the lookup
returns "" and does not mint. -/
theorem GetTraceId_cached {ctx : Ctx} {a : String}
    (h : mapLookup ctx.optionStore tracerID = some a) :
    GetTraceId ctx = (a, ctx) := by
  unfold GetTraceId
  simp only [h]

theorem get_trace_id_precedence :
    (∀ ctx a, mapLookup ctx.optionStore tracerID = some a →
      GetTraceId ctx = (a, ctx)) ∧
    (∀ ctx fs b, mapLookup ctx.optionStore tracerID = none →
      ctx.logFields = some fs → mapLookup fs "trace" = some (FVal.str b) →
      (GetTraceId ctx).1 = b ∧
      mapLookup (GetTraceId ctx).2.optionStore tracerID = some b ∧
      GetTraceId (GetTraceId ctx).2 = (b, (GetTraceId ctx).2)) ∧
    (∀ ctx, mapLookup ctx.optionStore tracerID = none →
      mapLookup (ctx.logFields.getD []) "trace" = none →
      GetTraceId ctx = ("", ctx)) := by
  refine ⟨fun ctx a h => GetTraceId_cached h, ?_, ?_⟩
  · intro ctx fs b h1 h2 h3
    have heq : GetTraceId ctx =
        (b, { ctx with optionStore := mapInsert ctx.optionStore tracerID b }) := by
      unfold GetTraceId
      simp only [h1, h2, h3]
    have hcache : mapLookup (GetTraceId ctx).2.optionStore tracerID = some b := by
      rw [heq]
      exact mapLookup_insert_self _ _ _
    exact ⟨by rw [heq], hcache, GetTraceId_cached hcache⟩
  · intro ctx h1 h2
    unfold GetTraceId
    cases hf : ctx.logFields with
    | none => simp only [h1, hf]
    | some fs =>
      rw [hf] at h2
      simp only [Option.getD_some] at h2
      simp only [h1, hf, h2]

/-- Evaluation witness for the C5 theorem: a carrier holding only the
field-store identifier "B". -/
theorem get_trace_id_precedence_witness :
    (GetTraceId ctxFieldB).1 = "B" ∧
    mapLookup (GetTraceId ctxFieldB).2.optionStore tracerID = some "B" ∧
    GetTraceId (GetTraceId ctxFieldB).2 = ("B", (GetTraceId ctxFieldB).2) :=
  get_trace_id_precedence.2.1 ctxFieldB [("trace", FVal.str "B")] "B"
    (by decide) (by decide) (by decide)

/-- The carrier fields of `GetTraceId`'s returned carrier other than the
option store are those of the argument. -/
theorem GetTraceId_snd (ctx : Ctx) :
    (GetTraceId ctx).2 = ctx ∨
    (GetTraceId ctx).2 =
      { ctx with optionStore :=
          mapInsert ctx.optionStore tracerID (GetTraceId ctx).1 } := by
  cases h1 : mapLookup ctx.optionStore tracerID with
  | some v =>
    left
    simp [GetTraceId, h1]
  | none =>
    cases h2 : ctx.logFields with
    | none =>
      left
      simp [GetTraceId, h1, h2]
    | some fs =>
      cases h3 : mapLookup fs "trace" with
      | none =>
        left
        simp [GetTraceId, h1, h2, h3]
      | some fv =>
        cases fv with
        | str t =>
          right
          simp [GetTraceId, h1, h2, h3]
        | blob ty tag =>
          left
          simp [GetTraceId, h1, h2, h3]

/-- Claim C6: on a carrier with no existing trace identifier, no inbound
transport metadata under the configured header (prefixed variant first,
then the bare name), and no active span, `SetTraceId` mints a
syntactically valid identifier (UUID-v4, falling back to the time-based
UUID when the randomness source fails) and writes it to both the field
store under "trace" and the option store under "tracerId", so that
`GetTraceId` on the returned carrier yields exactly that identifier. -/
theorem set_trace_id_mints (g : Globals) (env : Env) (ctx : Ctx)
    (h1 : (GetTraceId ctx).1 = "")
    (h2 : ∀ md, ctx.incomingMD = some md →
      mapLookup md ("grpcmetadata-" ++ g.traceHeader) = none ∧
      mapLookup md g.traceHeader = none)
    (h3 : ctx.spanBaggage = none) :
    validUUIDString (mintUUID env) ∧
    (GetTraceId (SetTraceId g env ctx)).1 = mintUUID env ∧
    mapLookup ((SetTraceId g env ctx).logFields.getD []) "trace" =
      some (FVal.str (mintUUID env)) ∧
    mapLookup (SetTraceId g env ctx).optionStore tracerID =
      some (mintUUID env) := by
  have hvalid : validUUIDString (mintUUID env) := by
    unfold mintUUID
    cases env.randUUID with
    | none => exact uuidString_valid _
    | some u => exact uuidString_valid _
  have hmd : (GetTraceId ctx).2.incomingMD = ctx.incomingMD := by
    rcases GetTraceId_snd ctx with hs | hs <;> rw [hs]
  have hspan : (GetTraceId ctx).2.spanBaggage = ctx.spanBaggage := by
    rcases GetTraceId_snd ctx with hs | hs <;> rw [hs]
  have hset : SetTraceId g env ctx =
      AddToOptions (AddToLogContext (GetTraceId ctx).2 "trace" (mintUUID env))
        tracerID (mintUUID env) := by
    unfold SetTraceId
    rw [if_neg (by rw [h1]; simp)]
    dsimp only
    have hmid : (match (GetTraceId ctx).2.incomingMD with
        | some md =>
          match mapLookup md ("grpcmetadata-" ++ g.traceHeader) with
          | some id => joinComma id
          | none =>
            match mapLookup md g.traceHeader with
            | some id => joinComma id
            | none => ""
        | none => "") = "" := by
      rw [hmd]
      cases hc : ctx.incomingMD with
      | none => rfl
      | some md =>
        obtain ⟨ha, hb⟩ := h2 md hc
        simp only [ha, hb]
    rw [hmid, hspan, h3]
    rfl
  refine ⟨hvalid, ?_, ?_, ?_⟩
  · rw [hset]
    exact congrArg Prod.fst (GetTraceId_cached (mapLookup_insert_self _ _ _))
  · rw [hset]
    show mapLookup
        (mapInsert ((GetTraceId ctx).2.logFields.getD []) "trace"
          (FVal.str (mintUUID env))) "trace" = some (FVal.str (mintUUID env))
    exact mapLookup_insert_self _ _ _
  · rw [hset]
    exact mapLookup_insert_self _ _ _

/-- Evaluation witness for the C6 theorem on the empty carrier with a
working randomness source. -/
theorem set_trace_id_mints_witness :
    validUUIDString (mintUUID env0) ∧
    (GetTraceId (SetTraceId g0 env0 backgroundCtx)).1 = mintUUID env0 ∧
    mapLookup ((SetTraceId g0 env0 backgroundCtx).logFields.getD []) "trace" =
      some (FVal.str (mintUUID env0)) ∧
    mapLookup (SetTraceId g0 env0 backgroundCtx).optionStore tracerID =
      some (mintUUID env0) :=
  set_trace_id_mints g0 env0 backgroundCtx (by decide)
    (fun md h => nomatch h) (by decide)

/-- Claim C7: `UpdateTraceId` with the empty identifier behaves identically
to `SetTraceId`; with a non-empty identifier it skips generation (the
result does not depend on the randomness environment) and overwrites the
identifier in both the field store and the option store. -/
theorem update_trace_id_force (g : Globals) (env : Env) :
    (∀ ctx, UpdateTraceId g env ctx "" = SetTraceId g env ctx) ∧
    (∀ ctx id, id ≠ "" →
      mapLookup ((UpdateTraceId g env ctx id).logFields.getD []) "trace" =
        some (FVal.str id) ∧
      mapLookup (UpdateTraceId g env ctx id).optionStore tracerID = some id ∧
      ∀ env', UpdateTraceId g env ctx id = UpdateTraceId g env' ctx id) := by
  constructor
  · intro ctx
    unfold UpdateTraceId
    simp
  · intro ctx id hid
    have heq : ∀ e : Env, UpdateTraceId g e ctx id =
        AddToOptions (AddToLogContext ctx "trace" id) tracerID id := by
      intro e
      unfold UpdateTraceId
      rw [if_neg hid]
    refine ⟨?_, ?_, fun env' => by rw [heq env, heq env']⟩
    · rw [heq env]
      show mapLookup
          (mapInsert (ctx.logFields.getD []) "trace" (FVal.str id)) "trace" =
        some (FVal.str id)
      exact mapLookup_insert_self _ _ _
    · rw [heq env]
      exact mapLookup_insert_self _ _ _

/-- Evaluation witness for the C7 theorem at a concrete carrier and
identifier. -/
theorem update_trace_id_force_witness :
    mapLookup ((UpdateTraceId g0 env0 backgroundCtx "abc").logFields.getD [])
      "trace" = some (FVal.str "abc") ∧
    mapLookup (UpdateTraceId g0 env0 backgroundCtx "abc").optionStore tracerID =
      some "abc" ∧
    ∀ env', UpdateTraceId g0 env0 backgroundCtx "abc" =
      UpdateTraceId g0 env' backgroundCtx "abc" :=
  (update_trace_id_force g0 env0).2 backgroundCtx "abc" (by decide)

/-! ## Stack adapter lemmas -/

theorem length_filterMap_of_isSome {α β : Type} (f : α → Option β)
    (l : List α) (h : ∀ x ∈ l, (f x).isSome = true) :
    (l.filterMap f).length = l.length := by
  induction l with
  | nil => rfl
  | cons x xs ih =>
    have hx := h x (List.mem_cons_self x xs)
    obtain ⟨y, hy⟩ := Option.isSome_iff_exists.mp hx
    simp [List.filterMap_cons, hy,
      ih (fun z hz => h z (List.mem_cons_of_mem x hz))]

/-- Claim C8: every stack format adapter preserves the frame count and the
per-frame (file, function, line) values in order; the adapter that must
reverse frame order (`convToSentry`) yields an output whose first element
is the resolved input sequence's last element. For the sentry adapter the
input frames are those the runtime resolves for the captured program
counters; the preservation statement assumes each counter resolves. -/
theorem stack_adapters_preserve :
    (∀ l : List StackFrame, (convToGoBrake l).length = l.length ∧
      ∀ i : Nat, (convToGoBrake l)[i]? =
        (l[i]?).map (fun s => { file := s.file, func := s.func, line := s.line })) ∧
    (∀ l : List StackFrame, (convToRollbar l).length = l.length ∧
      ∀ i : Nat, (convToRollbar l)[i]? =
        (l[i]?).map (fun s =>
          { filename := s.file, method := s.func, line := s.line })) ∧
    (∀ (resolve : Nat → Option RavenFrame) (e : GoError),
      (∀ pc ∈ e.callers, (resolve pc).isSome = true) →
      (convToSentry resolve e).frames.length = e.callers.length ∧
      (convToSentry resolve e).frames = (resolvedFrames resolve e).reverse ∧
      (convToSentry resolve e).frames.head? =
        (resolvedFrames resolve e).getLast?) := by
  refine ⟨?_, ?_, ?_⟩
  · intro l
    refine ⟨by simp [convToGoBrake], ?_⟩
    intro i
    simp [convToGoBrake]
  · intro l
    refine ⟨by simp [convToRollbar], ?_⟩
    intro i
    simp [convToRollbar]
  · intro resolve e h
    refine ⟨?_, rfl, ?_⟩
    · show (resolvedFrames resolve e).reverse.length = e.callers.length
      rw [List.length_reverse]
      apply length_filterMap_of_isSome
      intro pc hpc
      have := h pc hpc
      obtain ⟨y, hy⟩ := Option.isSome_iff_exists.mp this
      simp [hy]
    · show (resolvedFrames resolve e).reverse.head? = _
      exact List.head?_reverse _

def rv0 : RavenFrame := { function := "f", file := "a.go", line := 3, inApp := false }

def resolve0 : Nat → Option RavenFrame := fun pc => some { rv0 with line := pc }

def eC8 : GoError := { e0 with id := 8, callers := [1, 2] }

/-- Evaluation witness for the C8 theorem: the sentry adapter on a fully
resolvable two-frame error. -/
theorem stack_adapters_preserve_witness :
    (convToSentry resolve0 eC8).frames.length = eC8.callers.length ∧
    (convToSentry resolve0 eC8).frames = (resolvedFrames resolve0 eC8).reverse ∧
    (convToSentry resolve0 eC8).frames.head? =
      (resolvedFrames resolve0 eC8).getLast? :=
  stack_adapters_preserve.2.2 resolve0 eC8 (by decide)

/-! ## Totality at the public interface -/

theorem nilValued_shape {d : RawDatum} (h : nilValued d = true) :
    ∃ tag, d = RawDatum.other none tag := by
  cases d with
  | other ty tag =>
    cases ty with
    | none => exact ⟨tag, rfl⟩
    | some tn => exact absurd h (by simp [nilValued])
  | ctx c => exact absurd h (by simp [nilValued])
  | tags t => exact absurd h (by simp [nilValued])
  | err e => exact absurd h (by simp [nilValued])
  | str t => exact absurd h (by simp [nilValued])

theorem filterSelfRef_mark (e : GoError) (rawData : List RawDatum) :
    filterSelfRef (markNotified e) rawData = filterSelfRef e rawData := by
  induction rawData with
  | nil => rfl
  | cons d rest ih =>
    cases d with
    | err e2 => simp [filterSelfRef, selfRefMatch_mark, ih]
    | ctx c => simp [filterSelfRef, ih]
    | tags t => simp [filterSelfRef, ih]
    | str t => simp [filterSelfRef, ih]
    | other ty tag => simp [filterSelfRef, ih]

theorem filterSelfRef_keeps {err : GoError} {rawData list : List RawDatum}
    (h : filterSelfRef err rawData = some list) :
    ∀ d ∈ rawData, nilValued d = true → d ∈ list := by
  induction rawData generalizing list with
  | nil => intro d hd; cases hd
  | cons d rest ih =>
    intro d' hd' hnil
    cases hd' with
    | head =>
      obtain ⟨tag, rfl⟩ := nilValued_shape hnil
      simp only [filterSelfRef, Option.map_eq_some'] at h
      obtain ⟨l', hl', rfl⟩ := h
      exact List.mem_cons_self _ _
    | tail _ htail =>
      cases d with
      | err e2 =>
        by_cases hm : selfRefMatch err e2 = true
        · simp [filterSelfRef, hm] at h
        · simp only [Bool.not_eq_true] at hm
          simp only [filterSelfRef, hm, Bool.false_eq_true, if_false] at h
          exact ih h d' htail hnil
      | ctx c =>
        simp only [filterSelfRef, Option.map_eq_some'] at h
        obtain ⟨l', hl', rfl⟩ := h
        exact List.mem_cons_of_mem _ (ih hl' d' htail hnil)
      | tags t =>
        simp only [filterSelfRef, Option.map_eq_some'] at h
        obtain ⟨l', hl', rfl⟩ := h
        exact List.mem_cons_of_mem _ (ih hl' d' htail hnil)
      | str t =>
        simp only [filterSelfRef, Option.map_eq_some'] at h
        obtain ⟨l', hl', rfl⟩ := h
        exact List.mem_cons_of_mem _ (ih hl' d' htail hnil)
      | other ty tag =>
        simp only [filterSelfRef, Option.map_eq_some'] at h
        obtain ⟨l', hl', rfl⟩ := h
        exact List.mem_cons_of_mem _ (ih hl' d' htail hnil)

/-- Claim C10: totality of context extraction at the public interface.
`parseRawData` returns normally for every value list whose non-carrier,
non-tag-set values are non-nil interface values; a nil interface value of
that kind makes key synthesis dereference nil, so the extraction — and
hence a notify call that reaches it (not nil, not suppressed, not aborted
by self-reference) — does not return normally. -/
theorem parse_raw_data_totality :
    (∀ ctx rawData, (∀ d ∈ rawData, nilValued d = false) →
      (parseRawData ctx rawData).isSome = true) ∧
    (∀ ctx rawData d₀, d₀ ∈ rawData → nilValued d₀ = true →
      parseRawData ctx rawData = none) ∧
    (∀ g env e skip level rawData d₀, d₀ ∈ rawData → nilValued d₀ = true →
      (e.hasNotify = true → e.shouldNotify = true) →
      filterSelfRef e rawData ≠ none →
      NotifyWithLevelAndSkip g env (some e) skip level rawData = none) := by
  refine ⟨fun ctx rawData h => parseRawData_isSome h,
    fun ctx rawData d₀ hm hn => parseRawData_none hm hn, ?_⟩
  intro g env e skip level rawData d₀ hmem hnil hsn hf
  obtain ⟨list, hlist⟩ := Option.ne_none_iff_exists'.mp hf
  have hd : d₀ ∈ list := filterSelfRef_keeps hlist d₀ hmem hnil
  have hdo : ∀ e', filterSelfRef e' rawData = some list →
      doNotify g env e' skip level rawData = none := by
    intro e' hl
    unfold doNotify
    simp only [hl,
      @parseRawData_none ((findCtx list).getD backgroundCtx) list d₀ hd hnil]
  rw [NotifyWithLevelAndSkip_some]
  cases hn : e.hasNotify with
  | false => simp [hdo e hlist]
  | true =>
    have hs := hsn hn
    have hml : filterSelfRef (markNotified e) rawData = some list := by
      rw [filterSelfRef_mark]
      exact hlist
    simp [hs, hdo (markNotified e) hml]

/-- Evaluation witness for the C10 theorem: a notify call over a list
holding a nil interface value does not return normally. -/
theorem parse_raw_data_totality_witness :
    NotifyWithLevelAndSkip g0 env0 (some e0) 2 "error"
      [RawDatum.other none 0] = none :=
  parse_raw_data_totality.2.2 g0 env0 e0 2 "error" [RawDatum.other none 0]
    (RawDatum.other none 0) (by decide) (by decide) (by decide) (by decide)

/-! ## Context extraction: stored entries and key distinctness -/

/-- The (key, value) pairs the `parseRawData` loop stores, at their absolute
positions, in input order (carriers and tag sets are skipped; a nil value
stores nothing — it panics, handled separately). -/
def storedEntries : List RawDatum → Nat → List (String × RawDatum)
  | [], _ => []
  | d :: rest, pos =>
    match d with
    | .ctx _ => storedEntries rest (pos + 1)
    | .tags _ => storedEntries rest (pos + 1)
    | d' =>
      match dynTypeName d' with
      | none => storedEntries rest (pos + 1)
      | some tn => (typeKey tn pos, d') :: storedEntries rest (pos + 1)

def storedKeys (rawData : List RawDatum) (pos : Nat) : List String :=
  (storedEntries rawData pos).map Prod.fst

/-- The materialized tag sets in input order. -/
def tagsOf (rawData : List RawDatum) : List (List (String × String)) :=
  rawData.filterMap (fun d =>
    match d with
    | .tags t => some t
    | _ => none)

/-- Folding (key, value) writes into a Go map. -/
def buildMap (m : List (String × RawDatum)) (es : List (String × RawDatum)) :
    List (String × RawDatum) :=
  es.foldl (fun acc kv => mapInsert acc kv.1 kv.2) m

theorem parseItems_eq {rawData : List RawDatum}
    (h : ∀ d ∈ rawData, nilValued d = false) :
    ∀ pos m tg, parseItems rawData pos m tg =
      some (buildMap m (storedEntries rawData pos), tg ++ tagsOf rawData) := by
  induction rawData with
  | nil => intro pos m tg; simp [parseItems, storedEntries, tagsOf, buildMap]
  | cons d rest ih =>
    intro pos m tg
    have hd := h d (List.mem_cons_self d rest)
    have hrest : ∀ d' ∈ rest, nilValued d' = false :=
      fun d' hm => h d' (List.mem_cons_of_mem d hm)
    cases d with
    | ctx c => simp [parseItems, storedEntries, tagsOf, ih hrest]
    | tags t => simp [parseItems, storedEntries, tagsOf, ih hrest]
    | err e2 =>
      simp [parseItems, storedEntries, dynTypeName, tagsOf, buildMap, ih hrest]
    | str t =>
      simp [parseItems, storedEntries, dynTypeName, tagsOf, buildMap, ih hrest]
    | other ty tag =>
      cases ty with
      | none => exact absurd hd (by simp [nilValued])
      | some tn =>
        simp [parseItems, storedEntries, dynTypeName, tagsOf, buildMap, ih hrest]

theorem mem_mapInsert {α : Type} {m : List (String × α)} {k : String} {v : α} :
    ∀ kv ∈ mapInsert m k v, kv = (k, v) ∨ kv ∈ m := by
  induction m with
  | nil =>
    intro kv h
    simp [mapInsert] at h
    exact Or.inl h
  | cons kv0 rest ih =>
    obtain ⟨k', v'⟩ := kv0
    intro kv h
    by_cases hk : k' = k
    · simp only [mapInsert, hk, if_true, List.mem_cons] at h
      rcases h with rfl | h
      · exact Or.inl rfl
      · exact Or.inr (List.mem_cons_of_mem _ h)
    · simp only [mapInsert, hk, if_false, List.mem_cons] at h
      rcases h with rfl | h
      · exact Or.inr (List.mem_cons_self _ _)
      · rcases ih kv h with h' | h'
        · exact Or.inl h'
        · exact Or.inr (List.mem_cons_of_mem _ h')

theorem buildMap_cons (m : List (String × RawDatum)) (kv : String × RawDatum)
    (es : List (String × RawDatum)) :
    buildMap m (kv :: es) = buildMap (mapInsert m kv.1 kv.2) es := rfl

theorem buildMap_subset {es : List (String × RawDatum)} :
    ∀ m, ∀ kv ∈ buildMap m es, kv ∈ m ∨ kv ∈ es := by
  induction es with
  | nil => intro m kv h; exact Or.inl h
  | cons kv0 rest ih =>
    intro m kv h
    rw [buildMap_cons] at h
    rcases ih _ kv h with hm | hr
    · rcases mem_mapInsert kv hm with h' | h'
      · right
        rw [h']
        exact List.mem_cons_self _ _
      · exact Or.inl h'
    · exact Or.inr (List.mem_cons_of_mem _ hr)

theorem buildMap_lookup_of_not_mem {es : List (String × RawDatum)}
    {k : String} (h : ∀ kv ∈ es, kv.1 ≠ k) :
    ∀ m, mapLookup (buildMap m es) k = mapLookup m k := by
  induction es with
  | nil => intro m; rfl
  | cons kv0 rest ih =>
    intro m
    have hk := h kv0 (List.mem_cons_self _ _)
    have hrest : ∀ kv ∈ rest, kv.1 ≠ k :=
      fun kv hm => h kv (List.mem_cons_of_mem _ hm)
    rw [buildMap_cons, ih hrest, mapLookup_insert_ne _ _ _ _ hk]

theorem buildMap_lookup_mem {es : List (String × RawDatum)}
    (hdist : es.Pairwise (fun a b => a.1 ≠ b.1)) :
    ∀ m, ∀ kv ∈ es, mapLookup (buildMap m es) kv.1 = some kv.2 := by
  induction es with
  | nil => intro m kv hkv; cases hkv
  | cons kv0 rest ih =>
    intro m kv hkv
    obtain ⟨hhead, htl⟩ := List.pairwise_cons.mp hdist
    cases hkv with
    | head =>
      have hne : ∀ kv' ∈ rest, kv'.1 ≠ kv0.1 :=
        fun kv' hm => (hhead kv' hm).symm
      rw [buildMap_cons, buildMap_lookup_of_not_mem hne,
        mapLookup_insert_self]
    | tail _ hm =>
      rw [buildMap_cons]
      exact ih htl _ kv hm

theorem storedEntries_key_shape {rawData : List RawDatum} :
    ∀ pos, ∀ kv ∈ storedEntries rawData pos,
      kv.2 ∈ rawData ∧
      ∃ tn p, dynTypeName kv.2 = some tn ∧ kv.1 = typeKey tn p ∧ pos ≤ p := by
  induction rawData with
  | nil => intro pos kv h; cases h
  | cons d rest ih =>
    intro pos kv hkv
    have step : kv ∈ storedEntries rest (pos + 1) →
        kv.2 ∈ d :: rest ∧
        ∃ tn p, dynTypeName kv.2 = some tn ∧ kv.1 = typeKey tn p ∧ pos ≤ p := by
      intro hm
      obtain ⟨hmem, tn, p, hdyn, hkey, hle⟩ := ih (pos + 1) kv hm
      exact ⟨List.mem_cons_of_mem _ hmem, tn, p, hdyn, hkey, by omega⟩
    cases d with
    | ctx c =>
      rw [show storedEntries (RawDatum.ctx c :: rest) pos =
        storedEntries rest (pos + 1) from rfl] at hkv
      exact step hkv
    | tags t =>
      rw [show storedEntries (RawDatum.tags t :: rest) pos =
        storedEntries rest (pos + 1) from rfl] at hkv
      exact step hkv
    | err e2 =>
      rw [show storedEntries (RawDatum.err e2 :: rest) pos =
        (typeKey e2.tyName pos, RawDatum.err e2) ::
          storedEntries rest (pos + 1) from rfl] at hkv
      cases hkv with
      | head =>
        exact ⟨List.mem_cons_self _ _, e2.tyName, pos, rfl, rfl, Nat.le_refl _⟩
      | tail _ hm => exact step hm
    | str t =>
      rw [show storedEntries (RawDatum.str t :: rest) pos =
        ("string" ++ natString pos, RawDatum.str t) ::
          storedEntries rest (pos + 1) from rfl] at hkv
      cases hkv with
      | head =>
        exact ⟨List.mem_cons_self _ _, "string", pos, rfl, rfl, Nat.le_refl _⟩
      | tail _ hm => exact step hm
    | other ty tag =>
      cases ty with
      | none =>
        rw [show storedEntries (RawDatum.other none tag :: rest) pos =
          storedEntries rest (pos + 1) from rfl] at hkv
        exact step hkv
      | some tn =>
        rw [show storedEntries (RawDatum.other (some tn) tag :: rest) pos =
          (typeKey tn pos, RawDatum.other (some tn) tag) ::
            storedEntries rest (pos + 1) from rfl] at hkv
        cases hkv with
        | head =>
          exact ⟨List.mem_cons_self _ _, tn, pos, rfl, rfl, Nat.le_refl _⟩
        | tail _ hm => exact step hm

theorem storedEntries_pairwise {rawData : List RawDatum}
    (hdig : ∀ d ∈ rawData, ∀ tn, dynTypeName d = some tn →
      endsInDigitS tn = false) :
    ∀ pos, (storedEntries rawData pos).Pairwise (fun a b => a.1 ≠ b.1) := by
  induction rawData with
  | nil => intro pos; exact List.Pairwise.nil
  | cons d rest ih =>
    intro pos
    have hdrest : ∀ d' ∈ rest, ∀ tn, dynTypeName d' = some tn →
        endsInDigitS tn = false :=
      fun d' hm tn ht => hdig d' (List.mem_cons_of_mem _ hm) tn ht
    have hsep : ∀ tn₀, dynTypeName d = some tn₀ →
        ∀ kv ∈ storedEntries rest (pos + 1), typeKey tn₀ pos ≠ kv.1 := by
      intro tn₀ hdyn0 kv hkv
      obtain ⟨hmem, tn, p, hdyn, hkey, hle⟩ :=
        storedEntries_key_shape (pos + 1) kv hkv
      rw [hkey]
      exact typeKey_inj tn₀ tn pos p (by omega)
        (hdig d (List.mem_cons_self _ _) tn₀ hdyn0) (hdrest kv.2 hmem tn hdyn)
    cases d with
    | ctx c => exact ih hdrest (pos + 1)
    | tags t => exact ih hdrest (pos + 1)
    | err e2 =>
      exact List.Pairwise.cons (hsep e2.tyName rfl) (ih hdrest (pos + 1))
    | str t =>
      exact List.Pairwise.cons (hsep "string" rfl) (ih hdrest (pos + 1))
    | other ty tag =>
      cases ty with
      | none => exact ih hdrest (pos + 1)
      | some tn => exact List.Pairwise.cons (hsep tn rfl) (ih hdrest (pos + 1))

theorem copyFields_eq (fs : List (String × FVal))
    (m : List (String × RawDatum)) :
    copyFields fs m =
      buildMap m (fs.map (fun kv => (kv.1, fvalToRaw kv.2))) := by
  unfold copyFields buildMap
  rw [List.foldl_map]

theorem copyFields_lookup {fs : List (String × FVal)}
    (hdist : fs.Pairwise (fun a b => a.1 ≠ b.1))
    (m : List (String × RawDatum)) :
    ∀ kv ∈ fs, mapLookup (copyFields fs m) kv.1 = some (fvalToRaw kv.2) := by
  intro kv hkv
  rw [copyFields_eq]
  have hdist' : (fs.map (fun kv => (kv.1, fvalToRaw kv.2))).Pairwise
      (fun a b => a.1 ≠ b.1) := by
    exact List.Pairwise.map _ (fun a b hab => by simpa using hab) hdist
  have hkv' : (kv.1, fvalToRaw kv.2) ∈
      fs.map (fun kv => (kv.1, fvalToRaw kv.2)) :=
    List.mem_map_of_mem _ hkv
  simpa using buildMap_lookup_mem hdist' m _ hkv'

/-- A carrier with one ambient log field, for the C9 witness. -/
def ctxC9 : Ctx :=
  { optionStore := [], logFields := some [("reqid", FVal.str "r1")],
    incomingMD := none, spanBaggage := none }

/-- A mixed auxiliary list for the C9 witness. -/
def rawC9 : List RawDatum :=
  [RawDatum.ctx backgroundCtx, RawDatum.tags [("k", "v")],
   RawDatum.str "x", RawDatum.other (some "main.someStruct") 7]

/-- Claim C9 (amended): context extraction is a pure transformation: carrier
values are skipped, tag-set values are appended to the tag list preserving
input order, every other value is stored in the extra-data map under a key
combining its dynamic type name and its list position, and afterwards
every string-keyed field of the carrier's field store is copied into the
map. PROVIDED no stored value's dynamic type name ends in a decimal digit,
the synthesized keys are pairwise distinct; without that proviso keys can
collide (type name "T1" at position 2 and "T" at position 12 both yield
"T12") and the later value overwrites the earlier one. -/
theorem parse_raw_data_extraction (ctx : Ctx) (rawData : List RawDatum)
    (htotal : ∀ d ∈ rawData, nilValued d = false)
    (hdig : ∀ d ∈ rawData, endsInDigitS ((dynTypeName d).getD "") = false)
    (hfs : (ctx.logFields.getD []).Pairwise (fun a b => a.1 ≠ b.1)) :
    ∃ m, parseRawData ctx rawData = some (m, tagsOf rawData) ∧
      (storedKeys rawData 0).Pairwise (fun a b => a ≠ b) ∧
      (∀ kv ∈ storedEntries rawData 0,
        mapLookup (buildMap [] (storedEntries rawData 0)) kv.1 = some kv.2) ∧
      (∀ kv ∈ buildMap [] (storedEntries rawData 0),
        kv ∈ storedEntries rawData 0) ∧
      (∀ fs, ctx.logFields = some fs →
        ∀ kv ∈ fs, mapLookup m kv.1 = some (fvalToRaw kv.2)) ∧
      (ctx.logFields = none → m = buildMap [] (storedEntries rawData 0)) := by
  have hdig' : ∀ d ∈ rawData, ∀ tn, dynTypeName d = some tn →
      endsInDigitS tn = false := by
    intro d hd tn htn
    have := hdig d hd
    rw [htn] at this
    simpa using this
  have hpairs := storedEntries_pairwise hdig' 0
  have hkeys : (storedKeys rawData 0).Pairwise (fun a b => a ≠ b) := by
    unfold storedKeys
    exact List.Pairwise.map _ (fun a b hab => hab) hpairs
  have hitems := parseItems_eq htotal 0 [] []
  have hstored := buildMap_lookup_mem hpairs []
  have hsub : ∀ kv ∈ buildMap [] (storedEntries rawData 0),
      kv ∈ storedEntries rawData 0 := by
    intro kv hkv
    rcases buildMap_subset [] kv hkv with h | h
    · cases h
    · exact h
  unfold parseRawData
  rw [hitems]
  simp only [List.nil_append]
  cases hlf : ctx.logFields with
  | none =>
    refine ⟨buildMap [] (storedEntries rawData 0), rfl, hkeys, hstored, hsub,
      ?_, fun _ => rfl⟩
    intro fs hcontra
    exact absurd hcontra (by simp)
  | some fs =>
    have hdist : fs.Pairwise (fun a b => a.1 ≠ b.1) := by
      rw [hlf] at hfs
      simpa using hfs
    refine ⟨copyFields fs (buildMap [] (storedEntries rawData 0)), rfl, hkeys,
      hstored, hsub, ?_, ?_⟩
    · intro fs' hfs'
      have : fs' = fs := by
        injection hfs' with h
        exact h.symm
      subst this
      exact copyFields_lookup hdist _
    · intro hcontra
      exact absurd hcontra (by simp)

/-- Evaluation witness for the C9 theorem on a mixed list (a carrier, a tag
set, a string and a struct-like value) and a carrier with one log field. -/
theorem parse_raw_data_extraction_witness :
    ∃ m, parseRawData ctxC9 rawC9 = some (m, tagsOf rawC9) ∧
      (storedKeys rawC9 0).Pairwise (fun a b => a ≠ b) ∧
      (∀ kv ∈ storedEntries rawC9 0,
        mapLookup (buildMap [] (storedEntries rawC9 0)) kv.1 = some kv.2) ∧
      (∀ kv ∈ buildMap [] (storedEntries rawC9 0),
        kv ∈ storedEntries rawC9 0) ∧
      (∀ fs, ctxC9.logFields = some fs →
        ∀ kv ∈ fs, mapLookup m kv.1 = some (fvalToRaw kv.2)) ∧
      (ctxC9.logFields = none → m = buildMap [] (storedEntries rawC9 0)) :=
  parse_raw_data_extraction ctxC9 rawC9 (by decide) (by decide) (by decide)

/-- Thirteen auxiliary values: the value of type "T1" sits at position 2
and the value of type "T" at position 12. -/
def cexRaw : List RawDatum :=
  [RawDatum.ctx backgroundCtx, RawDatum.ctx backgroundCtx,
   RawDatum.other (some "T1") 0,
   RawDatum.ctx backgroundCtx, RawDatum.ctx backgroundCtx,
   RawDatum.ctx backgroundCtx, RawDatum.ctx backgroundCtx,
   RawDatum.ctx backgroundCtx, RawDatum.ctx backgroundCtx,
   RawDatum.ctx backgroundCtx, RawDatum.ctx backgroundCtx,
   RawDatum.ctx backgroundCtx,
   RawDatum.other (some "T") 1]

/-- C9 counterexample to the claim as stated: the keys are not pairwise
distinct — dynamic type name "T1" at position 2 and "T" at position 12
both synthesize the key "T12", and the later value overwrites the earlier
one in the extra-data map, so the position-2 value is not retrievable
under its key. -/
theorem parse_raw_data_extraction_counterexample :
    ¬ (storedKeys cexRaw 0).Pairwise (fun a b => a ≠ b) ∧
    mapLookup (buildMap [] (storedEntries cexRaw 0)) (typeKey "T1" 2) =
      some (RawDatum.other (some "T") 1) :=
  ⟨by decide, by decide⟩

end Notifier
